import Mathlib

/-!
Verification of the identifier-normalization and environment/project join layer
of the Coolify launcher extension (`src/api/filters.ts`, `src/search-resources.tsx`,
`src/search-applications.tsx` and the database/application list variants).

The TypeScript code is shallowly embedded: JS identifier values (number or
string) become `JsVal`, `undefined`/`null` become `Option.none`, JS `Map`s
become insertion-ordered association lists with JS `Map.set` semantics, JS
`Set`s become duplicate-free insertion-ordered lists, and JS `String.trim`
becomes dropping whitespace characters from both ends of the character list.
-/

namespace Coolify


/-- A present JS identifier value: `number | string`.  Numeric identifiers in
the API payloads are integral ids, modelled as `Int`; `String(n)` on an
integral JS number prints exactly like `Int.repr`. -/
inductive JsVal where
  | num : Int → JsVal
  | str : String → JsVal
deriving DecidableEq

/-- JS `String(value)` coercion for identifier values. -/
def jsString : JsVal → String
  | .num n => toString n
  | .str s => s

/-- JS `String.prototype.trim` on the underlying character list: drop
whitespace from the front, then from the back. -/
def trimChars (l : List Char) : List Char :=
  List.rdropWhile Char.isWhitespace (l.dropWhile Char.isWhitespace)

/-- JS `s.trim()`. -/
def jsTrim (s : String) : String := String.mk (trimChars s.data)

/-- `toId` from `src/api/filters.ts`:

```ts
export function toId(value?: number | string): string | null {
  if (value === undefined || value === null) return null;
  const text = String(value).trim();
  return text.length > 0 ? text : null;
}
``` -/
def toId : Option JsVal → Option String
  | none => none
  | some value =>
    let text := jsTrim (jsString value)
    if 0 < text.length then some text else none

/-! ### Data model (`src/api/filters.ts`) -/

/-- The `Environment` record type of `src/api/filters.ts`. -/
structure Environment where
  id : Option JsVal := none
  uuid : Option String := none
  name : Option String := none
  project_id : Option JsVal := none
  project_uuid : Option String := none
deriving DecidableEq

/-- The `Project` record type of `src/api/filters.ts`. -/
structure Project where
  id : Option JsVal := none
  uuid : Option String := none
  name : Option String := none
  environments : Option (List Environment) := none
deriving DecidableEq

/-- `ProjectEnvironment = Environment & { projectId?; projectName?; projectUuid? }`. -/
structure ProjectEnvironment where
  id : Option JsVal := none
  uuid : Option String := none
  name : Option String := none
  project_id : Option JsVal := none
  project_uuid : Option String := none
  projectId : Option String := none
  projectName : Option String := none
  projectUuid : Option String := none
deriving DecidableEq

/-- The `Environment` fields carried verbatim inside a `ProjectEnvironment`
(the `...environment` spread in `flattenEnvironments`). -/
def ProjectEnvironment.toEnvironment (e : ProjectEnvironment) : Environment :=
  { id := e.id, uuid := e.uuid, name := e.name,
    project_id := e.project_id, project_uuid := e.project_uuid }

/-- One loop body of `flattenEnvironments`: the record pushed for an embedded
environment, given the enclosing project's derived data.
`projectId` is `projectId ?? toId(environment.project_id ?? environment.project_uuid) ?? undefined`. -/
def annotateEnvironment (projectId : Option String) (projectName : String)
    (projectUuid : Option String) (environment : Environment) : ProjectEnvironment :=
  { id := environment.id, uuid := environment.uuid, name := environment.name,
    project_id := environment.project_id, project_uuid := environment.project_uuid,
    projectId := projectId <|> toId (environment.project_id <|> environment.project_uuid.map JsVal.str),
    projectName := some projectName,
    projectUuid := projectUuid }

/-- `flattenEnvironments` from `src/api/filters.ts`: per project compute
`projectId = toId(project.id ?? project.uuid)`,
`projectUuid = project.uuid ? String(project.uuid) : undefined` (the empty
string is falsy), `projectName = project.name ?? "Unnamed Project"`, then push
one annotated record per embedded environment (`project.environments ?? []`). -/
def flattenEnvironments : List Project → List ProjectEnvironment
  | [] => []
  | project :: rest =>
    (project.environments.getD []).map
      (annotateEnvironment
        (toId (project.id <|> project.uuid.map JsVal.str))
        (project.name.getD "Unnamed Project")
        (match project.uuid with
         | some uuid => if uuid = "" then none else some uuid
         | none => none))
      ++ flattenEnvironments rest

/-! ### JS `Map` / `Set` model

A JS `Map` is an insertion-ordered association list with unique keys:
`set` overwrites in place when the key exists and appends otherwise; `get`
returns the value or `undefined`.  A JS `Set` of strings is a duplicate-free
insertion-ordered list. -/

def mapGet {α : Type} : List (String × α) → String → Option α
  | [], _ => none
  | (k, v) :: rest, key => if k = key then some v else mapGet rest key

def mapSet {α : Type} : List (String × α) → String → α → List (String × α)
  | [], key, value => [(key, value)]
  | (k, v) :: rest, key, value =>
    if k = key then (k, value) :: rest else (k, v) :: mapSet rest key value

def setAdd (s : List String) (x : String) : List String :=
  if x ∈ s then s else s ++ [x]

/-! ### The canonical key and project reference used by the lookup builders -/

/-- The canonical environment key `toId(env.id ?? env.uuid)` computed by every
lookup builder in `src/api/filters.ts`. -/
def envKey (env : ProjectEnvironment) : Option String :=
  toId (env.id <|> env.uuid.map JsVal.str)

/-- The project reference `toId(env.projectId ?? env.project_uuid ?? env.project_id)`
computed by `buildEnvToProjectMap`. -/
def projectRef (env : ProjectEnvironment) : Option String :=
  toId ((env.projectId <|> env.project_uuid).map JsVal.str <|> env.project_id)

/-- The display name `env.name ?? "Unnamed Environment"`. -/
def displayName (env : ProjectEnvironment) : String :=
  env.name.getD "Unnamed Environment"

/-! ### Lookup builders

Each builder is a `for` loop over the flattened environment list that
conditionally `map.set`s one entry per record; the loop is factored as a
single accumulating recursion `buildMapAux` parameterized by the loop body
(the optional key/value pair contributed by a record). -/

def buildMapAux {α : Type} (f : ProjectEnvironment → Option (String × α))
    (acc : List (String × α)) : List ProjectEnvironment → List (String × α)
  | [] => acc
  | env :: rest =>
    buildMapAux f
      (match f env with
       | some (key, value) => mapSet acc key value
       | none => acc) rest

/-- `buildEnvToProjectMap`: `map.set(envId, projectId)` when both
`toId(env.id ?? env.uuid)` and `toId(env.projectId ?? env.project_uuid ?? env.project_id)`
are non-null (`toId` never returns the empty string, so JS truthiness of the
two id strings is exactly non-nullness). -/
def buildEnvToProjectMap (envs : List ProjectEnvironment) : List (String × String) :=
  buildMapAux
    (fun env =>
      match envKey env, projectRef env with
      | some envId, some projectId => some (envId, projectId)
      | _, _ => none)
    [] envs

/-- `buildEnvNameMap`: `map.set(envId, env.name ?? "Unnamed Environment")`
when `toId(env.id ?? env.uuid)` is non-null. -/
def buildEnvNameMap (envs : List ProjectEnvironment) : List (String × String) :=
  buildMapAux (fun env => (envKey env).map fun envId => (envId, displayName env)) [] envs

/-- `buildEnvLookup`: `map.set(envId, env)` when `toId(env.id ?? env.uuid)`
is non-null. -/
def buildEnvLookup (envs : List ProjectEnvironment) : List (String × ProjectEnvironment) :=
  buildMapAux (fun env => (envKey env).map fun envId => (envId, env)) [] envs

/-- `buildEnvNameToIdsMap`: for each record with non-null key, add the key to
the set stored under the display name
(`const set = map.get(name) ?? new Set(); set.add(envId); map.set(name, set)`). -/
def buildEnvNameToIdsMapAux (acc : List (String × List String)) :
    List ProjectEnvironment → List (String × List String)
  | [] => acc
  | env :: rest =>
    buildEnvNameToIdsMapAux
      (match envKey env with
       | none => acc
       | some envId =>
         let name := displayName env
         mapSet acc name (setAdd ((mapGet acc name).getD []) envId)) rest

def buildEnvNameToIdsMap (envs : List ProjectEnvironment) : List (String × List String) :=
  buildEnvNameToIdsMapAux [] envs

/-! ### String helpers for token dispatch

JS `s.startsWith(p)` and, for a string known to start with `p`,
`s.replace(p, "")` (which replaces the first occurrence, i.e. the prefix). -/

def strStartsWith (s p : String) : Bool := p.data.isPrefixOf s.data

def strDrop (s : String) (n : Nat) : String := String.mk (s.data.drop n)

/-- The uniform resource item shape consumed by `applyFilter` and the grouped
view in `src/search-resources.tsx`.  Modelled from the spec: `ResourceItem`
is declared in `lib/resources.ts`, which is not among the provided sources;
per spec §3 it carries a canonical `id`, a `type` tag, a display `name`,
optional `subtitle`/`repo`/`kind`/`url` free-text fields and an
`environmentId` reference (read defensively as possibly absent at every use
site: `item.environmentId ?? ""`).  The `type` tag is a string, as all
TS string-literal unions are. -/
structure ResourceItem where
  id : String := ""
  type : String := ""
  name : String := ""
  subtitle : Option String := none
  environmentId : Option String := none
  repo : Option String := none
  kind : Option String := none
  url : Option String := none
deriving DecidableEq

/-- `applyFilter` from `src/search-resources.tsx`: dispatch on the filter
token (`"all"`, then the `"project:"`, `"env:"`, `"type:"` prefixes, in that
order), defaulting to identity. -/
def applyFilter (items : List ResourceItem) (filterValue : String)
    (envToProjectMap : List (String × String))
    (envNameToIds : List (String × List String)) : List ResourceItem :=
  if filterValue = "all" then items
  else if strStartsWith filterValue "project:" then
    let projectId := strDrop filterValue 8
    items.filter fun item =>
      decide (mapGet envToProjectMap (item.environmentId.getD "") = some projectId)
  else if strStartsWith filterValue "env:" then
    let envName := strDrop filterValue 4
    match mapGet envNameToIds envName with
    | none => []
    | some envIds => items.filter fun item => decide ((item.environmentId.getD "") ∈ envIds)
  else if strStartsWith filterValue "type:" then
    let t := strDrop filterValue 5
    items.filter fun item => decide (item.type = t)
  else items

/-- The `Application` record type of `src/search-applications.tsx` (the copy
in the applications list source; the variant list file omits
`environment_uuid`, which no modelled function reads). -/
structure Application where
  id : Option JsVal := none
  uuid : Option String := none
  name : Option String := none
  fqdn : Option String := none
  git_repository : Option String := none
  git_branch : Option String := none
  environment_id : Option JsVal := none
  environment_uuid : Option String := none
  status : Option String := none
  deployment_status : Option String := none
  last_deployment_status : Option String := none
deriving DecidableEq

/-- `String(item.environment_id ?? "")` as computed by the applications list
`applyFilter`. -/
def appEnvIdString (item : Application) : String :=
  jsString (item.environment_id.getD (JsVal.str ""))

/-- `applyFilter` from the applications list (`src/unnamed/part_002`): checks
`"env:"` before `"project:"`, and keeps the whole list when
`hasEnvMapping` is false (`if (!hasEnvMapping) return items;`); the caller
passes `hasEnvMapping = envToProjectMap.size > 0`. -/
def applyFilterApplications (items : List Application) (filterValue : String)
    (envToProjectMap : List (String × String)) (hasEnvMapping : Bool)
    (envNameToIds : List (String × List String)) : List Application :=
  if filterValue = "all" then items
  else if strStartsWith filterValue "env:" then
    let envName := strDrop filterValue 4
    match mapGet envNameToIds envName with
    | none => []
    | some envIds => items.filter fun item => decide (appEnvIdString item ∈ envIds)
  else if strStartsWith filterValue "project:" then
    if !hasEnvMapping then items
    else
      let projectId := strDrop filterValue 8
      items.filter fun item =>
        decide (mapGet envToProjectMap (appEnvIdString item) = some projectId)
  else items

/-- `fqdn.split(",")[0]`: the characters before the first comma (JS `split`
with a one-character separator; the first element always exists). -/
def firstSegment (s : String) : String :=
  String.mk (s.data.takeWhile fun c => c != ',')

/-- `getPrimaryUrl` from `src/search-applications.tsx` (identical copy in the
applications list variant): `!app.fqdn` is true for both `undefined` and the
empty string. -/
def getPrimaryUrl (app : Application) : Option String :=
  match app.fqdn with
  | none => none
  | some fqdn =>
    if fqdn = "" then none
    else
      let raw := jsTrim (firstSegment fqdn)
      if raw = "" then none
      else if strStartsWith raw "http://" || strStartsWith raw "https://" then some raw
      else some ("https://" ++ raw)

/-! ### Concrete example environments used in counterexamples and witnesses -/

/-- A flattened environment with numeric id 1 and name "prod" (no project
reference). -/
def envProd1 : ProjectEnvironment := { id := some (JsVal.num 1), name := some "prod" }

/-- Like `envProd1` but with a project reference "A". -/
def envProd1A : ProjectEnvironment :=
  { id := some (JsVal.num 1), name := some "prod", projectId := some "A" }

/-- Same environment id and name as `envProd1A` but owned by project "B". -/
def envProd1B : ProjectEnvironment :=
  { id := some (JsVal.num 1), name := some "prod", projectId := some "B" }

/-- Name "prod" but distinct id 2, owned by project "B". -/
def envProd2B : ProjectEnvironment :=
  { id := some (JsVal.num 2), name := some "prod", projectId := some "B" }

/-- An environment with an id but no project reference at all. -/
def envNoProj : ProjectEnvironment := { id := some (JsVal.num 1) }

/-- Same id as `envNoProj` but with a project reference. -/
def envWithProj : ProjectEnvironment :=
  { id := some (JsVal.num 1), projectId := some "p" }

/-! ### The grouped resource view sort (`groupedResources` in
`src/search-resources.tsx`) -/

/-- One entry of the `groupedResources` aggregation:
`{ item, projectName, envName }`. -/
structure GroupedEntry where
  item : ResourceItem
  projectName : String
  envName : String
deriving DecidableEq

/-- The entry list built by `groupedResources` before sorting:
`projectName = envLookup.get(envId)?.projectName ?? "Unassigned"`,
`envName = envNameMap.get(envId) ?? "Unknown"`. -/
def groupedEntries (items : List ResourceItem)
    (envLookupMap : List (String × ProjectEnvironment))
    (envNameMapL : List (String × String)) : List GroupedEntry :=
  items.map fun item =>
    { item := item
      projectName := ((mapGet envLookupMap (item.environmentId.getD "")).bind
        (fun envInfo => envInfo.projectName)).getD "Unassigned"
      envName := (mapGet envNameMapL (item.environmentId.getD "")).getD "Unknown" }

/-- `typeOrder` from `src/search-resources.tsx`: application 1, service 2,
database 3, default 99. -/
def typeOrder (type : String) : Int :=
  if type = "application" then 1
  else if type = "service" then 2
  else if type = "database" then 3
  else 99

/-- `localeCompare`, modelled as the three-valued code-point comparison on
strings. -/
def strCompare (a b : String) : Int :=
  if a < b then -1 else if b < a then 1 else 0

/-- The comparator passed to `entries.sort` in `groupedResources`: project
name, then environment name, then `typeOrder` difference, then item name,
each consulted only when the previous compare returned 0. -/
def entryCompare (a b : GroupedEntry) : Int :=
  if strCompare a.projectName b.projectName ≠ 0 then
    strCompare a.projectName b.projectName
  else if strCompare a.envName b.envName ≠ 0 then
    strCompare a.envName b.envName
  else if typeOrder a.item.type - typeOrder b.item.type ≠ 0 then
    typeOrder a.item.type - typeOrder b.item.type
  else strCompare a.item.name b.item.name

def entryLe (a b : GroupedEntry) : Prop := entryCompare a b ≤ 0

instance : DecidableRel entryLe :=
  fun a b => inferInstanceAs (Decidable (entryCompare a b ≤ 0))

/-- `entries.sort(comparator)`.  `Array.prototype.sort` is stable (ES2019),
and a stable sort consistent with a total preorder comparator is unique, so
insertion sort is a faithful model. -/
def sortEntries (entries : List GroupedEntry) : List GroupedEntry :=
  List.insertionSort entryLe entries

/-- The four-component sort key of an entry: project name, environment name,
type rank, item name. -/
def sortKey (e : GroupedEntry) : String × String × Int × String :=
  (e.projectName, e.envName, typeOrder e.item.type, e.item.name)

/-- Modelled from the spec sort contract: lexicographic order on the sort
key — project name first, ties fall through to environment name, then type
rank, then item name. -/
def specKeyLe (k1 k2 : String × String × Int × String) : Prop :=
  k1.1 < k2.1 ∨ (k1.1 = k2.1 ∧ (k1.2.1 < k2.2.1 ∨ (k1.2.1 = k2.2.1 ∧
    (k1.2.2.1 < k2.2.2.1 ∨ (k1.2.2.1 = k2.2.2.1 ∧ k1.2.2.2 ≤ k2.2.2.2)))))


/-! ### Trim lemmas -/

theorem trimChars_head_not (l : List Char) (a : Char) (t : List Char)
    (h : trimChars l = a :: t) : Char.isWhitespace a = false := by
  unfold trimChars at h
  obtain ⟨s, hs⟩ := List.rdropWhile_prefix Char.isWhitespace (l.dropWhile Char.isWhitespace)
  have hhead : (l.dropWhile Char.isWhitespace).head? = some a := by
    rw [← hs, h]; rfl
  have hnot := List.head?_dropWhile_not Char.isWhitespace l
  rw [hhead] at hnot
  exact hnot

theorem trimChars_idempotent (l : List Char) : trimChars (trimChars l) = trimChars l := by
  have h1 : (trimChars l).dropWhile Char.isWhitespace = trimChars l := by
    cases h : trimChars l with
    | nil => simp
    | cons a t =>
      have ha := trimChars_head_not l a t h
      simp [List.dropWhile_cons, ha]
  show List.rdropWhile Char.isWhitespace ((trimChars l).dropWhile Char.isWhitespace) = trimChars l
  rw [h1]
  unfold trimChars
  exact List.rdropWhile_idempotent _ _

theorem jsTrim_idempotent (s : String) : jsTrim (jsTrim s) = jsTrim s := by
  unfold jsTrim
  rw [show (String.mk (trimChars s.data)).data = trimChars s.data from rfl,
    trimChars_idempotent]

/-- A normalized identifier is never the empty string. -/
theorem toId_ne_empty {v : Option JsVal} {s : String} (h : toId v = some s) : s ≠ "" := by
  match v with
  | none => simp [toId] at h
  | some value =>
    simp only [toId] at h
    split at h
    · rename_i hpos
      intro hs
      rw [← Option.some_inj.mp h] at hs
      rw [hs] at hpos
      simp [String.length] at hpos
    · exact absurd h (by simp)

/-- C5 (part): the output of `toId` is a fixed point of trimming and nonempty. -/
theorem toId_some_spec {v : JsVal} {s : String} (h : toId (some v) = some s) :
    s = jsTrim (jsString v) ∧ 0 < s.length := by
  simp only [toId] at h
  split at h
  · rename_i hpos
    cases h
    exact ⟨rfl, hpos⟩
  · exact absurd h (by simp)

theorem mapGet_mapSet_self {α : Type} (m : List (String × α)) (k : String) (v : α) :
    mapGet (mapSet m k v) k = some v := by
  induction m with
  | nil => simp [mapSet, mapGet]
  | cons p rest ih =>
    obtain ⟨k', v'⟩ := p
    by_cases h : k' = k
    · simp [mapSet, mapGet, h]
    · simp [mapSet, mapGet, h, ih]

theorem mapGet_mapSet_ne {α : Type} (m : List (String × α)) {k key : String} (v : α)
    (h : k ≠ key) : mapGet (mapSet m k v) key = mapGet m key := by
  induction m with
  | nil => simp [mapSet, mapGet, h]
  | cons p rest ih =>
    obtain ⟨k', v'⟩ := p
    by_cases h' : k' = k
    · subst h'
      simp [mapSet, mapGet, h]
    · simp [mapSet, mapGet, h', ih]

theorem mem_setAdd {s : List String} {x y : String} :
    y ∈ setAdd s x ↔ y ∈ s ∨ y = x := by
  unfold setAdd
  by_cases h : x ∈ s
  · simp only [if_pos h]
    constructor
    · exact Or.inl
    · rintro (hy | rfl)
      · exact hy
      · exact h
  · simp [if_neg h]

/-! ### Claim theorems: C5 and C1 -/

/-- C5: `toId` is total, returns `null` (`none`) for nullish input, otherwise
coerces to a string and trims whitespace, returning `null` when the trimmed
result is empty and the trimmed string otherwise; consequently re-normalizing
a normalized identifier changes nothing (idempotence). -/
theorem toId_spec_and_idempotent :
    toId none = none ∧
    (∀ v : JsVal, toId (some v) =
      if 0 < (jsTrim (jsString v)).length then some (jsTrim (jsString v)) else none) ∧
    (∀ v : Option JsVal, toId ((toId v).map JsVal.str) = toId v) := by
  refine ⟨rfl, fun v => rfl, fun v => ?_⟩
  match v with
  | none => rfl
  | some value =>
    show toId ((toId (some value)).map JsVal.str) = toId (some value)
    by_cases h : 0 < (jsTrim (jsString value)).length
    · have h1 : toId (some value) = some (jsTrim (jsString value)) := by
        simp [toId, h]
      rw [h1, Option.map_some']
      show (if 0 < (jsTrim (jsTrim (jsString value))).length
            then some (jsTrim (jsTrim (jsString value))) else none)
          = some (jsTrim (jsString value))
      rw [jsTrim_idempotent, if_pos h]
    · have h1 : toId (some value) = none := by
        simp [toId, h]
      rw [h1]
      rfl

/-- C1: `flattenEnvironments` emits exactly one output record per embedded
environment (absent environment lists contribute zero records), so its length
is the sum of the projects' environment-list lengths, and the output is the
in-order concatenation of the projects' environment lists (each record
carrying its original environment fields): project order and within-project
environment order are preserved. -/
theorem flattenEnvironments_length_and_order (P : List Project) :
    (flattenEnvironments P).length
        = (P.map fun p => (p.environments.getD []).length).sum
    ∧ (flattenEnvironments P).map ProjectEnvironment.toEnvironment
        = P.flatMap fun p => p.environments.getD [] := by
  have hmap : ∀ (a : Option String) (b : String) (c : Option String) (l : List Environment),
      (l.map (annotateEnvironment a b c)).map ProjectEnvironment.toEnvironment = l := by
    intro a b c l
    rw [List.map_map]
    exact (List.map_congr_left fun e _ => rfl).trans (List.map_id _)
  induction P with
  | nil => exact ⟨rfl, rfl⟩
  | cons p rest ih =>
    constructor
    · simp only [flattenEnvironments, List.length_append, List.length_map,
        List.map_cons, List.sum_cons, ih.1]
    · simp only [flattenEnvironments, List.map_append, ih.2, List.flatMap_cons]
      rw [hmap]

/-! ### Characterizations of the four indexes -/

theorem isSome_mapGet_mapSet {α : Type} (m : List (String × α)) (key k : String) (v : α) :
    (mapGet (mapSet m key v) k).isSome = true ↔ key = k ∨ (mapGet m k).isSome = true := by
  by_cases h : key = k
  · subst h
    simp [mapGet_mapSet_self]
  · rw [mapGet_mapSet_ne _ _ h]
    simp [h]

theorem mapGet_buildMapAux_isSome {α : Type} (f : ProjectEnvironment → Option (String × α))
    (envs : List ProjectEnvironment) (acc : List (String × α)) (k : String) :
    (mapGet (buildMapAux f acc envs) k).isSome = true ↔
      (mapGet acc k).isSome = true ∨ ∃ e ∈ envs, ∃ v, f e = some (k, v) := by
  induction envs generalizing acc with
  | nil => simp [buildMapAux]
  | cons env rest ih =>
    simp only [buildMapAux]
    rw [ih]
    cases hf : f env with
    | none =>
      simp only [hf, List.exists_mem_cons_iff]
      constructor
      · rintro (h | h)
        · exact Or.inl h
        · exact Or.inr (Or.inr h)
      · rintro (h | ⟨v, hv⟩ | h)
        · exact Or.inl h
        · exact absurd hv (by simp)
        · exact Or.inr h
    | some kv =>
      obtain ⟨key, value⟩ := kv
      simp only [hf, isSome_mapGet_mapSet, List.exists_mem_cons_iff, Option.some.injEq,
        Prod.mk.injEq]
      constructor
      · rintro (⟨rfl | h⟩ | h)
        · exact Or.inr (Or.inl ⟨value, rfl, rfl⟩)
        · exact Or.inl ‹_›
        · exact Or.inr (Or.inr h)
      · rintro (h | ⟨v, rfl, rfl⟩ | h)
        · exact Or.inl (Or.inr h)
        · exact Or.inl (Or.inl rfl)
        · exact Or.inr h

theorem buildMapAux_filter_isSome {α : Type} (f : ProjectEnvironment → Option (String × α))
    (hf : ∀ e, envKey e = none → f e = none)
    (envs : List ProjectEnvironment) (acc : List (String × α)) :
    buildMapAux f acc (envs.filter fun e => (envKey e).isSome) = buildMapAux f acc envs := by
  induction envs generalizing acc with
  | nil => rfl
  | cons env rest ih =>
    by_cases hk : (envKey env).isSome = true
    · rw [List.filter_cons_of_pos (by simpa using hk)]
      simp only [buildMapAux]
      exact ih _
    · rw [List.filter_cons_of_neg (by simpa using hk)]
      have hnone : f env = none := hf env (Option.not_isSome_iff_eq_none.mp hk)
      simp only [buildMapAux, hnone]
      exact ih _

theorem n2i_mem_iff (envs : List ProjectEnvironment) (acc : List (String × List String))
    (n k : String) :
    (∃ s, mapGet (buildEnvNameToIdsMapAux acc envs) n = some s ∧ k ∈ s) ↔
      (∃ s, mapGet acc n = some s ∧ k ∈ s) ∨
        ∃ e ∈ envs, envKey e = some k ∧ displayName e = n := by
  induction envs generalizing acc with
  | nil => simp [buildEnvNameToIdsMapAux]
  | cons env rest ih =>
    simp only [buildEnvNameToIdsMapAux]
    rw [ih]
    cases hk : envKey env with
    | none =>
      simp only [hk, List.exists_mem_cons_iff]
      constructor
      · rintro (h | h)
        · exact Or.inl h
        · exact Or.inr (Or.inr h)
      · rintro (h | ⟨hek, _⟩ | h)
        · exact Or.inl h
        · exact absurd hek (by simp)
        · exact Or.inr h
    | some envId =>
      have hstep :
          (∃ s, mapGet (mapSet acc (displayName env)
              (setAdd ((mapGet acc (displayName env)).getD []) envId)) n = some s ∧ k ∈ s) ↔
            (∃ s, mapGet acc n = some s ∧ k ∈ s) ∨ (envId = k ∧ displayName env = n) := by
        by_cases hn : displayName env = n
        · rw [← hn, mapGet_mapSet_self]
          constructor
          · rintro ⟨s, hs, hm⟩
            rw [Option.some_inj] at hs
            subst hs
            rcases mem_setAdd.mp hm with hmem | rfl
            · cases hacc : mapGet acc (displayName env) with
              | none =>
                rw [hacc] at hmem
                exact absurd hmem (by simp)
              | some old =>
                rw [hacc] at hmem
                exact Or.inl ⟨old, rfl, by simpa using hmem⟩
            · exact Or.inr ⟨rfl, rfl⟩
          · rintro (⟨s, hs, hm⟩ | ⟨rfl, _⟩)
            · refine ⟨setAdd ((mapGet acc (displayName env)).getD []) envId, rfl, ?_⟩
              have hgd : (mapGet acc (displayName env)).getD [] = s := by rw [hs]; rfl
              rw [hgd]
              exact mem_setAdd.mpr (Or.inl hm)
            · exact ⟨_, rfl, mem_setAdd.mpr (Or.inr rfl)⟩
        · rw [mapGet_mapSet_ne _ _ hn]
          constructor
          · exact Or.inl
          · rintro (h | ⟨_, hn'⟩)
            · exact h
            · exact absurd hn' hn
      simp only [List.exists_mem_cons_iff, hk, Option.some.injEq]
      rw [hstep]
      exact or_assoc

theorem n2i_key_iff (envs : List ProjectEnvironment) (acc : List (String × List String))
    (n : String) :
    (mapGet (buildEnvNameToIdsMapAux acc envs) n).isSome = true ↔
      (mapGet acc n).isSome = true ∨
        ∃ e ∈ envs, (envKey e).isSome = true ∧ displayName e = n := by
  induction envs generalizing acc with
  | nil => simp [buildEnvNameToIdsMapAux]
  | cons env rest ih =>
    simp only [buildEnvNameToIdsMapAux]
    rw [ih]
    cases hk : envKey env with
    | none =>
      simp only [hk, List.exists_mem_cons_iff]
      constructor
      · rintro (h | h)
        · exact Or.inl h
        · exact Or.inr (Or.inr h)
      · rintro (h | ⟨hek, _⟩ | h)
        · exact Or.inl h
        · exact absurd hek (by simp)
        · exact Or.inr h
    | some envId =>
      simp only [List.exists_mem_cons_iff, hk, isSome_mapGet_mapSet, Option.isSome_some,
        true_and]
      constructor
      · rintro ((h | h) | h)
        · exact Or.inr (Or.inl h)
        · exact Or.inl h
        · exact Or.inr (Or.inr h)
      · rintro (h | h | h)
        · exact Or.inl (Or.inr h)
        · exact Or.inl (Or.inl h)
        · exact Or.inr h

theorem n2i_filter (envs : List ProjectEnvironment) (acc : List (String × List String)) :
    buildEnvNameToIdsMapAux acc (envs.filter fun e => (envKey e).isSome) =
      buildEnvNameToIdsMapAux acc envs := by
  induction envs generalizing acc with
  | nil => rfl
  | cons env rest ih =>
    by_cases hk : (envKey env).isSome = true
    · rw [List.filter_cons_of_pos (by simpa using hk)]
      simp only [buildEnvNameToIdsMapAux]
      exact ih _
    · rw [List.filter_cons_of_neg (by simpa using hk)]
      have hnone : envKey env = none := Option.not_isSome_iff_eq_none.mp hk
      simp only [buildEnvNameToIdsMapAux, hnone]
      exact ih _

theorem envToProjectMap_key_iff (envs : List ProjectEnvironment) (k : String) :
    (mapGet (buildEnvToProjectMap envs) k).isSome = true ↔
      ∃ e ∈ envs, envKey e = some k ∧ (projectRef e).isSome = true := by
  unfold buildEnvToProjectMap
  rw [mapGet_buildMapAux_isSome]
  have hnil : (mapGet ([] : List (String × String)) k).isSome = true ↔ False := by
    simp [mapGet]
  rw [hnil, false_or]
  constructor
  · rintro ⟨e, he, v, hv⟩
    refine ⟨e, he, ?_⟩
    cases h1 : envKey e with
    | none => rw [h1] at hv; exact absurd hv (by cases projectRef e <;> simp)
    | some a =>
      cases h2 : projectRef e with
      | none => rw [h1, h2] at hv; exact absurd hv (by simp)
      | some b =>
        rw [h1, h2] at hv
        have hab : a = k ∧ b = v := by
          have h' := Option.some.inj hv
          simpa [Prod.ext_iff] using h'
        exact ⟨by rw [hab.1], by simp⟩
  · rintro ⟨e, he, h1, h2⟩
    obtain ⟨b, h2⟩ := Option.isSome_iff_exists.mp h2
    exact ⟨e, he, b, by rw [h1, h2]⟩

theorem envNameMap_key_iff (envs : List ProjectEnvironment) (k : String) :
    (mapGet (buildEnvNameMap envs) k).isSome = true ↔
      ∃ e ∈ envs, envKey e = some k := by
  unfold buildEnvNameMap
  rw [mapGet_buildMapAux_isSome]
  have hnil : (mapGet ([] : List (String × String)) k).isSome = true ↔ False := by
    simp [mapGet]
  rw [hnil, false_or]
  constructor
  · rintro ⟨e, he, v, hv⟩
    refine ⟨e, he, ?_⟩
    cases h1 : envKey e with
    | none => rw [h1] at hv; exact absurd hv (by simp)
    | some a =>
      rw [h1] at hv
      simp only [Option.map_some', Option.some.injEq, Prod.mk.injEq] at hv
      rw [hv.1]
  · rintro ⟨e, he, h1⟩
    exact ⟨e, he, displayName e, by rw [h1]; rfl⟩

theorem envLookup_key_iff (envs : List ProjectEnvironment) (k : String) :
    (mapGet (buildEnvLookup envs) k).isSome = true ↔
      ∃ e ∈ envs, envKey e = some k := by
  unfold buildEnvLookup
  rw [mapGet_buildMapAux_isSome]
  have hnil : (mapGet ([] : List (String × ProjectEnvironment)) k).isSome = true ↔ False := by
    simp [mapGet]
  rw [hnil, false_or]
  constructor
  · rintro ⟨e, he, v, hv⟩
    refine ⟨e, he, ?_⟩
    cases h1 : envKey e with
    | none => rw [h1] at hv; exact absurd hv (by simp)
    | some a =>
      rw [h1] at hv
      simp only [Option.map_some', Option.some.injEq, Prod.mk.injEq] at hv
      rw [hv.1]
  · rintro ⟨e, he, h1⟩
    exact ⟨e, he, e, by rw [h1]; rfl⟩

theorem envNameToIdsMap_key_iff (envs : List ProjectEnvironment) (n : String) :
    (mapGet (buildEnvNameToIdsMap envs) n).isSome = true ↔
      ∃ e ∈ envs, (envKey e).isSome = true ∧ displayName e = n := by
  unfold buildEnvNameToIdsMap
  rw [n2i_key_iff]
  have hnil : (mapGet ([] : List (String × List String)) n).isSome = true ↔ False := by
    simp [mapGet]
  rw [hnil, false_or]

theorem envNameToIdsMap_mem_iff (envs : List ProjectEnvironment) (n k : String) :
    (∃ s, mapGet (buildEnvNameToIdsMap envs) n = some s ∧ k ∈ s) ↔
      ∃ e ∈ envs, envKey e = some k ∧ displayName e = n := by
  unfold buildEnvNameToIdsMap
  rw [n2i_mem_iff]
  have hnil : (∃ s, mapGet ([] : List (String × List String)) n = some s ∧ k ∈ s) ↔ False := by
    simp [mapGet]
  rw [hnil, false_or]

theorem strStartsWith_append (p s : String) : strStartsWith (p ++ s) p = true := by
  show (p.data.isPrefixOf (p.data ++ s.data)) = true
  induction p.data with
  | nil => simp [List.isPrefixOf]
  | cons c cs ih => simp [List.isPrefixOf, ih]

theorem strDrop_append (p s : String) : strDrop (p ++ s) p.length = s := by
  show String.mk ((p.data ++ s.data).drop p.data.length) = s
  rw [List.drop_left]

theorem append_ne_of_length_lt {p s t : String} (h : t.length < p.length) : p ++ s ≠ t := by
  intro he
  have hl := congrArg String.length he
  rw [String.length_append] at hl
  omega

/-! ### Token dispatch lemmas -/

theorem env_token_not_project (n : String) :
    strStartsWith ("env:" ++ n) "project:" = false := rfl

theorem project_token_not_env (p : String) :
    strStartsWith ("project:" ++ p) "env:" = false := rfl

theorem applyFilter_project (items : List ResourceItem) (pid : String)
    (m : List (String × String)) (ids : List (String × List String)) :
    applyFilter items ("project:" ++ pid) m ids =
      items.filter fun item =>
        decide (mapGet m (item.environmentId.getD "") = some pid) := by
  unfold applyFilter
  rw [if_neg (show ¬("project:" ++ pid = "all") from append_ne_of_length_lt (by decide)),
    if_pos (strStartsWith_append "project:" pid)]
  have h8 : strDrop ("project:" ++ pid) 8 = pid := by
    rw [show (8 : Nat) = "project:".length from rfl]
    exact strDrop_append _ _
  rw [h8]

theorem applyFilter_env (items : List ResourceItem) (n : String)
    (m : List (String × String)) (ids : List (String × List String)) :
    applyFilter items ("env:" ++ n) m ids =
      match mapGet ids n with
      | none => []
      | some envIds =>
        items.filter fun item => decide ((item.environmentId.getD "") ∈ envIds) := by
  unfold applyFilter
  rw [if_neg (show ¬("env:" ++ n = "all") from append_ne_of_length_lt (by decide)),
    if_neg (show ¬(strStartsWith ("env:" ++ n) "project:" = true) by
      rw [env_token_not_project]; simp),
    if_pos (strStartsWith_append "env:" n)]
  have h4 : strDrop ("env:" ++ n) 4 = n := by
    rw [show (4 : Nat) = "env:".length from rfl]
    exact strDrop_append _ _
  rw [h4]

theorem applyFilterApplications_project (items : List Application) (pid : String)
    (m : List (String × String)) (hasEnv : Bool) (ids : List (String × List String)) :
    applyFilterApplications items ("project:" ++ pid) m hasEnv ids =
      if !hasEnv then items
      else items.filter fun item =>
        decide (mapGet m (appEnvIdString item) = some pid) := by
  unfold applyFilterApplications
  rw [if_neg (show ¬("project:" ++ pid = "all") from append_ne_of_length_lt (by decide)),
    if_neg (show ¬(strStartsWith ("project:" ++ pid) "env:" = true) by
      rw [project_token_not_env]; simp),
    if_pos (strStartsWith_append "project:" pid)]
  have h8 : strDrop ("project:" ++ pid) 8 = pid := by
    rw [show (8 : Nat) = "project:".length from rfl]
    exact strDrop_append _ _
  rw [h8]

/-! ### Claim theorems: C2, C3, C9 -/

/-- C2 (amended): in the resources view, `"project:" + id` keeps exactly the
items whose `environmentId` maps through the env-to-project index to exactly
`id` (unmapped items are dropped); the applications-list variant behaves the
same only when the env-to-project index is nonempty — when the index is empty
its `hasEnvMapping` guard returns the item list unchanged, keeping unmapped
items. -/
theorem projectFilter_amended :
    (∀ (items : List ResourceItem) (pid : String) (m : List (String × String))
        (ids : List (String × List String)) (item : ResourceItem),
      item ∈ applyFilter items ("project:" ++ pid) m ids ↔
        item ∈ items ∧ mapGet m (item.environmentId.getD "") = some pid) ∧
    (∀ (items : List Application) (pid : String) (m : List (String × String))
        (ids : List (String × List String)),
      0 < m.length →
      ∀ item : Application,
        item ∈ applyFilterApplications items ("project:" ++ pid) m
            (decide (0 < m.length)) ids ↔
          item ∈ items ∧ mapGet m (appEnvIdString item) = some pid) ∧
    (∀ (items : List Application) (pid : String) (ids : List (String × List String)),
      applyFilterApplications items ("project:" ++ pid) []
          (decide (0 < ([] : List (String × String)).length)) ids = items) := by
  refine ⟨fun items pid m ids item => ?_, fun items pid m ids hm item => ?_,
    fun items pid ids => ?_⟩
  · rw [applyFilter_project, List.mem_filter]
    simp
  · rw [applyFilterApplications_project]
    rw [if_neg (by simp [hm])]
    rw [List.mem_filter]
    simp
  · rw [applyFilterApplications_project]
    rfl

/-- C2 (counterexample to the original claim): with an empty env-to-project
index (so `hasEnvMapping` is false as wired by the caller), the
applications-list `"project:"` filter keeps an item whose environment has no
entry in the index, instead of dropping it. -/
theorem projectFilter_keeps_unmapped_application :
    applyFilterApplications [{ environment_id := some (JsVal.num 1) }] "project:1" []
        (decide (0 < ([] : List (String × String)).length)) [] =
      [{ environment_id := some (JsVal.num 1) }] ∧
    ∀ item ∈ [({ environment_id := some (JsVal.num 1) } : Application)],
      mapGet ([] : List (String × String)) (appEnvIdString item) ≠ some "1" := by
  constructor
  · rfl
  · decide

/-- C2 witness: the amended theorem applied at concrete inputs. -/
theorem projectFilter_amended_witness :
    (({ environmentId := some "1" } : ResourceItem) ∈
        applyFilter [{ environmentId := some "1" }] ("project:" ++ "p") [("1", "p")] [] ↔
      ({ environmentId := some "1" } : ResourceItem) ∈
          [({ environmentId := some "1" } : ResourceItem)] ∧
        mapGet [("1", "p")] ((some "1").getD "") = some "p") ∧
    (({ environment_id := some (JsVal.num 1) } : Application) ∈
        applyFilterApplications [{ environment_id := some (JsVal.num 1) }] ("project:" ++ "p")
          [("1", "p")] (decide (0 < [("1", "p")].length)) [] ↔
      ({ environment_id := some (JsVal.num 1) } : Application) ∈
          [({ environment_id := some (JsVal.num 1) } : Application)] ∧
        mapGet [("1", "p")] (appEnvIdString { environment_id := some (JsVal.num 1) }) =
          some "p") := by
  constructor
  · exact projectFilter_amended.1 _ "p" [("1", "p")] [] _
  · exact projectFilter_amended.2.1 _ "p" [("1", "p")] [] (by decide) _

/-- C3: `"env:" + name` with a name that is not a key of the
env-name-to-ids index yields the empty list (not the full list); with a known
name it keeps exactly the items whose `environmentId` is in the stored id
set. -/
theorem envFilter_spec (items : List ResourceItem) (n : String)
    (m : List (String × String)) (ids : List (String × List String)) :
    (mapGet ids n = none → applyFilter items ("env:" ++ n) m ids = []) ∧
    (∀ s, mapGet ids n = some s →
      ∀ item, item ∈ applyFilter items ("env:" ++ n) m ids ↔
        item ∈ items ∧ (item.environmentId.getD "") ∈ s) := by
  constructor
  · intro h
    rw [applyFilter_env, h]
  · intro s hs item
    rw [applyFilter_env, hs]
    rw [List.mem_filter]
    simp

/-- C3 witness: the theorem applied at concrete inputs on both sides of the
lookup. -/
theorem envFilter_spec_witness :
    applyFilter [{ environmentId := some "1" }] ("env:" ++ "missing") []
        [("prod", ["1"])] = [] ∧
    (({ environmentId := some "1" } : ResourceItem) ∈
        applyFilter [{ environmentId := some "1" }] ("env:" ++ "prod") [] [("prod", ["1"])] ↔
      ({ environmentId := some "1" } : ResourceItem) ∈
          [({ environmentId := some "1" } : ResourceItem)] ∧
        ((some "1").getD "") ∈ ["1"]) := by
  constructor
  · exact (envFilter_spec _ "missing" [] [("prod", ["1"])]).1 (by decide)
  · exact (envFilter_spec _ "prod" [] [("prod", ["1"])]).2 ["1"] (by decide) _

/-- C9: an item whose `environmentId` is absent or empty never survives a
`"project:"` or `"env:"` filter run against the built indexes: the empty
string is never a key of the env-to-project index nor a member of any
env-name-to-ids set, because `toId` maps absent/empty identifiers to `null`
and such records are skipped by every index builder. -/
theorem emptyEnvId_never_kept (envs : List ProjectEnvironment)
    (items : List ResourceItem) (pid n : String) (item : ResourceItem)
    (h : item.environmentId = none ∨ item.environmentId = some "") :
    mapGet (buildEnvToProjectMap envs) "" = none ∧
    (∀ n' s, mapGet (buildEnvNameToIdsMap envs) n' = some s → "" ∉ s) ∧
    item ∉ applyFilter items ("project:" ++ pid) (buildEnvToProjectMap envs)
      (buildEnvNameToIdsMap envs) ∧
    item ∉ applyFilter items ("env:" ++ n) (buildEnvToProjectMap envs)
      (buildEnvNameToIdsMap envs) := by
  have hid : item.environmentId.getD "" = "" := by
    rcases h with h | h <;> rw [h] <;> rfl
  have h1 : mapGet (buildEnvToProjectMap envs) "" = none := by
    cases hm : mapGet (buildEnvToProjectMap envs) "" with
    | none => rfl
    | some v =>
      exfalso
      obtain ⟨e, _, hk, _⟩ := (envToProjectMap_key_iff envs "").mp (by rw [hm]; rfl)
      exact toId_ne_empty hk rfl
  have h2 : ∀ n' s, mapGet (buildEnvNameToIdsMap envs) n' = some s → "" ∉ s := by
    intro n' s hs hmem
    obtain ⟨e, _, hk, _⟩ := (envNameToIdsMap_mem_iff envs n' "").mp ⟨s, hs, hmem⟩
    exact toId_ne_empty hk rfl
  refine ⟨h1, h2, ?_, ?_⟩
  · rw [applyFilter_project]
    intro hmem
    rw [List.mem_filter] at hmem
    have := of_decide_eq_true hmem.2
    rw [hid, h1] at this
    exact absurd this (by simp)
  · rw [applyFilter_env]
    cases hm : mapGet (buildEnvNameToIdsMap envs) n with
    | none => exact (List.not_mem_nil _)
    | some s =>
      intro hmem
      rw [List.mem_filter] at hmem
      have := of_decide_eq_true hmem.2
      rw [hid] at this
      exact h2 n s hm this

/-- C9 witness: the theorem applied at a concrete input. -/
theorem emptyEnvId_never_kept_witness :
    ({ environmentId := none } : ResourceItem) ∉
      applyFilter [{ environmentId := none }] ("project:" ++ "p")
        (buildEnvToProjectMap []) (buildEnvNameToIdsMap []) :=
  (emptyEnvId_never_kept [] [{ environmentId := none }] "p" "x"
    { environmentId := none } (Or.inl rfl)).2.2.1

/-! ### Claim theorems: C4, C8, C10 -/

/-- C4 (counterexample to the original claim): the env-name-to-ids index is
keyed by display names, so its key "prod" is not the canonical id of any
indexed record. -/
theorem envNameToIds_key_not_a_canonical_id :
    (mapGet (buildEnvNameToIdsMap [envProd1]) "prod").isSome = true ∧
    ∀ e ∈ [envProd1], ¬ envKey e = some "prod" := by
  constructor
  · rfl
  · decide

/-- C4 (amended): every key of the env-to-project, env-name and env-lookup
indexes is the canonical id of at least one record; every key of the
env-name-to-ids index is the display name of at least one record with a
non-null canonical id, and every id stored in its sets is such a canonical
id; records whose canonical id normalizes to null contribute nothing to any
of the four indexes. -/
theorem index_keys_from_indexed_records (envs : List ProjectEnvironment) (k n : String) :
    ((mapGet (buildEnvToProjectMap envs) k).isSome = true → ∃ e ∈ envs, envKey e = some k) ∧
    ((mapGet (buildEnvNameMap envs) k).isSome = true → ∃ e ∈ envs, envKey e = some k) ∧
    ((mapGet (buildEnvLookup envs) k).isSome = true → ∃ e ∈ envs, envKey e = some k) ∧
    ((mapGet (buildEnvNameToIdsMap envs) n).isSome = true →
      ∃ e ∈ envs, (envKey e).isSome = true ∧ displayName e = n) ∧
    (∀ s, mapGet (buildEnvNameToIdsMap envs) n = some s →
      ∀ x ∈ s, ∃ e ∈ envs, envKey e = some x ∧ displayName e = n) ∧
    buildEnvToProjectMap (envs.filter fun e => (envKey e).isSome) = buildEnvToProjectMap envs ∧
    buildEnvNameMap (envs.filter fun e => (envKey e).isSome) = buildEnvNameMap envs ∧
    buildEnvLookup (envs.filter fun e => (envKey e).isSome) = buildEnvLookup envs ∧
    buildEnvNameToIdsMap (envs.filter fun e => (envKey e).isSome) = buildEnvNameToIdsMap envs := by
  refine ⟨?_, ?_, ?_, ?_, ?_, ?_, ?_, ?_, ?_⟩
  · intro h
    obtain ⟨e, he, hk, _⟩ := (envToProjectMap_key_iff envs k).mp h
    exact ⟨e, he, hk⟩
  · exact fun h => (envNameMap_key_iff envs k).mp h
  · exact fun h => (envLookup_key_iff envs k).mp h
  · exact fun h => (envNameToIdsMap_key_iff envs n).mp h
  · intro s hs x hx
    exact (envNameToIdsMap_mem_iff envs n x).mp ⟨s, hs, hx⟩
  · exact buildMapAux_filter_isSome _
      (fun e h => by cases hp : projectRef e <;> simp [h, hp]) envs []
  · exact buildMapAux_filter_isSome _ (fun e h => by simp [h]) envs []
  · exact buildMapAux_filter_isSome _ (fun e h => by simp [h]) envs []
  · exact n2i_filter envs []

/-- C4 witness: the amended theorem applied at concrete inputs. -/
theorem index_keys_from_indexed_records_witness :
    (∃ e ∈ [envProd1A], envKey e = some "1") ∧
    (∃ e ∈ [envProd1A], (envKey e).isSome = true ∧ displayName e = "prod") ∧
    (∃ e ∈ [envProd1A], envKey e = some "1" ∧ displayName e = "prod") := by
  have h := index_keys_from_indexed_records [envProd1A] "1" "prod"
  refine ⟨h.1 (by rfl), h.2.2.2.1 (by rfl), ?_⟩
  exact h.2.2.2.2.1 ["1"] (by rfl) "1" (by decide)

/-- A list with two distinct members has length at least two. -/
theorem two_ne_mem_le_length {α : Type} {s : List α} {a b : α}
    (ha : a ∈ s) (hb : b ∈ s) (h : a ≠ b) : 2 ≤ s.length := by
  match s with
  | [] => exact absurd ha (List.not_mem_nil a)
  | [x] =>
    rw [List.mem_singleton] at ha hb
    exact absurd (ha.trans hb.symm) h
  | x :: y :: t =>
    simp only [List.length_cons]
    omega

/-- C8 (counterexample to the original claim): two same-named environments in
different projects that share a canonical id collapse to a singleton id set
(sets deduplicate), so the stored set has size 1, not ≥ 2. -/
theorem sharedName_set_can_be_singleton :
    displayName envProd1A = displayName envProd1B ∧
    envProd1A.projectId ≠ envProd1B.projectId ∧
    mapGet (buildEnvNameToIdsMap [envProd1A, envProd1B]) "prod" = some ["1"] ∧
    ∀ s, mapGet (buildEnvNameToIdsMap [envProd1A, envProd1B]) (displayName envProd1A) =
      some s → s.length < 2 := by
  refine ⟨rfl, by decide, by rfl, ?_⟩
  intro s hs
  have : some ["1"] = some s := by rw [← hs]; rfl
  cases Option.some.inj this
  decide

/-- C8 (amended): for every environment name shared by two environments with
distinct non-null canonical ids belonging to different projects in the
flattened list, the env-name-to-ids entry for that name is a set of size at
least 2 (id sets accumulate across projects rather than overwriting). -/
theorem sharedName_set_size_ge_two (envs : List ProjectEnvironment)
    (e1 e2 : ProjectEnvironment) (k1 k2 : String)
    (h1 : e1 ∈ envs) (h2 : e2 ∈ envs) (hname : displayName e1 = displayName e2)
    (_hproj : e1.projectId ≠ e2.projectId)
    (hk1 : envKey e1 = some k1) (hk2 : envKey e2 = some k2) (hne : k1 ≠ k2) :
    ∃ s, mapGet (buildEnvNameToIdsMap envs) (displayName e1) = some s ∧ 2 ≤ s.length := by
  obtain ⟨s, hs, hm1⟩ :=
    (envNameToIdsMap_mem_iff envs (displayName e1) k1).mpr ⟨e1, h1, hk1, rfl⟩
  obtain ⟨s', hs', hm2⟩ :=
    (envNameToIdsMap_mem_iff envs (displayName e1) k2).mpr ⟨e2, h2, hk2, hname.symm⟩
  rw [hs] at hs'
  cases Option.some.inj hs'
  exact ⟨s, hs, two_ne_mem_le_length hm1 hm2 hne⟩

/-- C8 witness: the amended theorem applied at a concrete input. -/
theorem sharedName_set_size_ge_two_witness :
    ∃ s, mapGet (buildEnvNameToIdsMap [envProd1A, envProd2B]) (displayName envProd1A) =
      some s ∧ 2 ≤ s.length :=
  sharedName_set_size_ge_two [envProd1A, envProd2B] envProd1A envProd2B "1" "2"
    (by decide) (by decide) (by decide) (by decide) (by rfl) (by rfl) (by decide)

/-- C10 (counterexample to the original claim): with a duplicate canonical id
where one record carries a project reference and the other does not, some
indexed environment has no project reference that normalizes to a non-null
id, yet the env-to-project key set equals the env-name key set (no strict
inclusion). -/
theorem envToProject_keys_not_strict_despite_unmapped_record :
    (∃ e ∈ [envNoProj, envWithProj], (envKey e).isSome = true ∧ projectRef e = none) ∧
    ∀ k, (mapGet (buildEnvNameMap [envNoProj, envWithProj]) k).isSome = true ↔
      (mapGet (buildEnvToProjectMap [envNoProj, envWithProj]) k).isSome = true := by
  constructor
  · decide
  · intro k
    have h1 : buildEnvNameMap [envNoProj, envWithProj] = [("1", "Unnamed Environment")] := by
      rfl
    have h2 : buildEnvToProjectMap [envNoProj, envWithProj] = [("1", "p")] := by
      rfl
    rw [h1, h2]
    by_cases h : "1" = k <;> simp [mapGet, h]

/-- C10 (amended): the env-name and env-lookup indexes have the same key
set; that key set equals the union of all id sets of the env-name-to-ids
index; the env-to-project key set is contained in it, and the containment is
strict exactly when some canonical id is carried only by records whose
project reference normalizes to null. -/
theorem index_key_sets_consistent (envs : List ProjectEnvironment) :
    (∀ k, (mapGet (buildEnvNameMap envs) k).isSome = true ↔
      (mapGet (buildEnvLookup envs) k).isSome = true) ∧
    (∀ k, (mapGet (buildEnvNameMap envs) k).isSome = true ↔
      ∃ n s, mapGet (buildEnvNameToIdsMap envs) n = some s ∧ k ∈ s) ∧
    (∀ k, (mapGet (buildEnvToProjectMap envs) k).isSome = true →
      (mapGet (buildEnvNameMap envs) k).isSome = true) ∧
    ((∃ k, (mapGet (buildEnvNameMap envs) k).isSome = true ∧
        (mapGet (buildEnvToProjectMap envs) k).isSome = false) ↔
      ∃ k, (∃ e ∈ envs, envKey e = some k) ∧
        ∀ e ∈ envs, envKey e = some k → projectRef e = none) := by
  refine ⟨?_, ?_, ?_, ?_⟩
  · intro k
    rw [envNameMap_key_iff, envLookup_key_iff]
  · intro k
    rw [envNameMap_key_iff]
    constructor
    · rintro ⟨e, he, hk⟩
      exact ⟨displayName e, (envNameToIdsMap_mem_iff envs (displayName e) k).mpr
        ⟨e, he, hk, rfl⟩⟩
    · rintro ⟨n, s, hs, hm⟩
      obtain ⟨e, he, hk, _⟩ := (envNameToIdsMap_mem_iff envs n k).mp ⟨s, hs, hm⟩
      exact ⟨e, he, hk⟩
  · intro k h
    obtain ⟨e, he, hk, _⟩ := (envToProjectMap_key_iff envs k).mp h
    exact (envNameMap_key_iff envs k).mpr ⟨e, he, hk⟩
  · constructor
    · rintro ⟨k, hname, hproj⟩
      refine ⟨k, (envNameMap_key_iff envs k).mp hname, ?_⟩
      intro e he hk
      by_contra hne
      have : (mapGet (buildEnvToProjectMap envs) k).isSome = true :=
        (envToProjectMap_key_iff envs k).mpr
          ⟨e, he, hk, Option.isSome_iff_ne_none.mpr hne⟩
      rw [hproj] at this
      exact absurd this (by simp)
    · rintro ⟨k, ⟨e, he, hk⟩, hall⟩
      refine ⟨k, (envNameMap_key_iff envs k).mpr ⟨e, he, hk⟩, ?_⟩
      cases hm : (mapGet (buildEnvToProjectMap envs) k).isSome with
      | false => rfl
      | true =>
        exfalso
        obtain ⟨e', he', hk', hp'⟩ := (envToProjectMap_key_iff envs k).mp hm
        rw [hall e' he' hk'] at hp'
        exact absurd hp' (by simp)

/-- C10 witness: the amended theorem applied at concrete inputs. -/
theorem index_key_sets_consistent_witness :
    ((mapGet (buildEnvLookup [envProd1A]) "1").isSome = true) ∧
    (∃ n s, mapGet (buildEnvNameToIdsMap [envProd1A]) n = some s ∧ "1" ∈ s) ∧
    ((mapGet (buildEnvNameMap [envProd1A]) "1").isSome = true) ∧
    (∃ k, (∃ e ∈ [envNoProj], envKey e = some k) ∧
      ∀ e ∈ [envNoProj], envKey e = some k → projectRef e = none) := by
  have hA := index_key_sets_consistent [envProd1A]
  have hB := index_key_sets_consistent [envNoProj]
  refine ⟨(hA.1 "1").mp (by rfl), (hA.2.1 "1").mp (by rfl),
    hA.2.2.1 "1" (by rfl), ?_⟩
  exact (hB.2.2.2).mp ⟨"1", by rfl, by rfl⟩

/-! ### Claim theorem: C7 -/

/-- C7: the derived url is the first comma-separated segment of `fqdn` after
trimming, prefixed with `https://` when it carries no `http://`/`https://`
scheme and left as-is when it does; it is undefined when `fqdn` is absent or
the first segment is empty after trimming; `"a.com,b.com"` yields
`"https://a.com"`. -/
theorem getPrimaryUrl_spec :
    (∀ app : Application, app.fqdn = none → getPrimaryUrl app = none) ∧
    (∀ (app : Application) (f : String), app.fqdn = some f →
      jsTrim (firstSegment f) = "" → getPrimaryUrl app = none) ∧
    (∀ (app : Application) (f : String), app.fqdn = some f →
      jsTrim (firstSegment f) ≠ "" →
      getPrimaryUrl app =
        some (if strStartsWith (jsTrim (firstSegment f)) "http://"
                || strStartsWith (jsTrim (firstSegment f)) "https://"
              then jsTrim (firstSegment f)
              else "https://" ++ jsTrim (firstSegment f))) ∧
    getPrimaryUrl { fqdn := some "a.com,b.com" } = some "https://a.com" := by
  refine ⟨?_, ?_, ?_, by rfl⟩
  · intro app h
    simp [getPrimaryUrl, h]
  · intro app f hf hraw
    simp only [getPrimaryUrl, hf]
    by_cases hempty : f = ""
    · rw [if_pos hempty]
    · rw [if_neg hempty, if_pos hraw]
  · intro app f hf hraw
    have hempty : f ≠ "" := by
      intro h0
      apply hraw
      rw [h0]
      rfl
    simp only [getPrimaryUrl, hf]
    rw [if_neg hempty, if_neg hraw]
    by_cases hs : (strStartsWith (jsTrim (firstSegment f)) "http://"
        || strStartsWith (jsTrim (firstSegment f)) "https://") = true
    · rw [if_pos hs, if_pos hs]
    · rw [if_neg hs, if_neg hs]

/-- C7 witness: the theorem applied at concrete inputs covering every
branch. -/
theorem getPrimaryUrl_spec_witness :
    getPrimaryUrl { fqdn := none } = none ∧
    getPrimaryUrl { fqdn := some " ,b.com" } = none ∧
    getPrimaryUrl { fqdn := some "a.com,b.com" } =
      some (if strStartsWith (jsTrim (firstSegment "a.com,b.com")) "http://"
              || strStartsWith (jsTrim (firstSegment "a.com,b.com")) "https://"
            then jsTrim (firstSegment "a.com,b.com")
            else "https://" ++ jsTrim (firstSegment "a.com,b.com")) ∧
    getPrimaryUrl { fqdn := some "http://a.com" } =
      some (if strStartsWith (jsTrim (firstSegment "http://a.com")) "http://"
              || strStartsWith (jsTrim (firstSegment "http://a.com")) "https://"
            then jsTrim (firstSegment "http://a.com")
            else "https://" ++ jsTrim (firstSegment "http://a.com")) :=
  ⟨getPrimaryUrl_spec.1 _ rfl,
   getPrimaryUrl_spec.2.1 _ " ,b.com" rfl (by rfl),
   getPrimaryUrl_spec.2.2.1 _ "a.com,b.com" rfl (by decide),
   getPrimaryUrl_spec.2.2.1 _ "http://a.com" rfl (by decide)⟩

theorem strCompare_eq_zero_iff {a b : String} : strCompare a b = 0 ↔ a = b := by
  unfold strCompare
  split_ifs with h1 h2
  · exact iff_of_false (by decide) (ne_of_lt h1)
  · exact iff_of_false (by decide) (ne_of_gt h2)
  · exact iff_of_true rfl (le_antisymm (not_lt.mp h2) (not_lt.mp h1))

theorem strCompare_le_zero_iff {a b : String} : strCompare a b ≤ 0 ↔ a ≤ b := by
  unfold strCompare
  split_ifs with h1 h2
  · exact iff_of_true (by decide) (le_of_lt h1)
  · exact iff_of_false (by decide) (not_le.mpr h2)
  · exact iff_of_true le_rfl (not_lt.mp h2)

theorem strCompare_le_zero_of_ne {a b : String} (h : a ≠ b) :
    strCompare a b ≤ 0 ↔ a < b := by
  rw [strCompare_le_zero_iff]
  exact ⟨fun hle => lt_of_le_of_ne hle h, le_of_lt⟩

theorem entryCompare_le_iff (a b : GroupedEntry) :
    entryCompare a b ≤ 0 ↔ specKeyLe (sortKey a) (sortKey b) := by
  have hkey : specKeyLe (sortKey a) (sortKey b) ↔
      (a.projectName < b.projectName ∨ (a.projectName = b.projectName ∧
        (a.envName < b.envName ∨ (a.envName = b.envName ∧
          (typeOrder a.item.type < typeOrder b.item.type ∨
            (typeOrder a.item.type = typeOrder b.item.type ∧
              a.item.name ≤ b.item.name)))))) := Iff.rfl
  rw [hkey]
  unfold entryCompare
  by_cases hp : strCompare a.projectName b.projectName = 0
  · rw [if_neg (not_not_intro hp)]
    have hpeq : a.projectName = b.projectName := strCompare_eq_zero_iff.mp hp
    by_cases he : strCompare a.envName b.envName = 0
    · rw [if_neg (not_not_intro he)]
      have heeq : a.envName = b.envName := strCompare_eq_zero_iff.mp he
      by_cases ht : typeOrder a.item.type - typeOrder b.item.type = 0
      · rw [if_neg (not_not_intro ht)]
        rw [strCompare_le_zero_iff]
        constructor
        · intro hle
          exact Or.inr ⟨hpeq, Or.inr ⟨heeq, Or.inr ⟨by omega, hle⟩⟩⟩
        · rintro (h | ⟨_, h | ⟨_, h | ⟨_, h⟩⟩⟩)
          · rw [hpeq] at h; exact absurd h (lt_irrefl _)
          · rw [heeq] at h; exact absurd h (lt_irrefl _)
          · exact absurd h (by omega)
          · exact h
      · rw [if_pos ht]
        constructor
        · intro hle
          exact Or.inr ⟨hpeq, Or.inr ⟨heeq, Or.inl (by omega)⟩⟩
        · rintro (h | ⟨_, h | ⟨_, h | ⟨h, _⟩⟩⟩)
          · rw [hpeq] at h; exact absurd h (lt_irrefl _)
          · rw [heeq] at h; exact absurd h (lt_irrefl _)
          · omega
          · omega
    · rw [if_pos he]
      have hene : a.envName ≠ b.envName := fun h => he (strCompare_eq_zero_iff.mpr h)
      rw [strCompare_le_zero_of_ne hene]
      constructor
      · intro h
        exact Or.inr ⟨hpeq, Or.inl h⟩
      · rintro (h | ⟨_, h | ⟨heq, _⟩⟩)
        · rw [hpeq] at h; exact absurd h (lt_irrefl _)
        · exact h
        · exact absurd heq hene
  · rw [if_pos hp]
    have hpne : a.projectName ≠ b.projectName := fun h => hp (strCompare_eq_zero_iff.mpr h)
    rw [strCompare_le_zero_of_ne hpne]
    constructor
    · exact Or.inl
    · rintro (h | ⟨heq, _⟩)
      · exact h
      · exact absurd heq hpne

theorem specKeyLe_total (k1 k2 : String × String × Int × String) :
    specKeyLe k1 k2 ∨ specKeyLe k2 k1 := by
  obtain ⟨p1, e1, t1, n1⟩ := k1
  obtain ⟨p2, e2, t2, n2⟩ := k2
  unfold specKeyLe
  rcases lt_trichotomy p1 p2 with h | h | h
  · exact Or.inl (Or.inl h)
  · subst h
    rcases lt_trichotomy e1 e2 with h | h | h
    · exact Or.inl (Or.inr ⟨rfl, Or.inl h⟩)
    · subst h
      rcases lt_trichotomy t1 t2 with h | h | h
      · exact Or.inl (Or.inr ⟨rfl, Or.inr ⟨rfl, Or.inl h⟩⟩)
      · subst h
        rcases le_total n1 n2 with h | h
        · exact Or.inl (Or.inr ⟨rfl, Or.inr ⟨rfl, Or.inr ⟨rfl, h⟩⟩⟩)
        · exact Or.inr (Or.inr ⟨rfl, Or.inr ⟨rfl, Or.inr ⟨rfl, h⟩⟩⟩)
      · exact Or.inr (Or.inr ⟨rfl, Or.inr ⟨rfl, Or.inl h⟩⟩)
    · exact Or.inr (Or.inr ⟨rfl, Or.inl h⟩)
  · exact Or.inr (Or.inl h)

theorem specKeyLe_trans (k1 k2 k3 : String × String × Int × String)
    (h12 : specKeyLe k1 k2) (h23 : specKeyLe k2 k3) : specKeyLe k1 k3 := by
  obtain ⟨p1, e1, t1, n1⟩ := k1
  obtain ⟨p2, e2, t2, n2⟩ := k2
  obtain ⟨p3, e3, t3, n3⟩ := k3
  unfold specKeyLe at h12 h23 ⊢
  rcases h12 with h | ⟨rfl, h12⟩
  · rcases h23 with h' | ⟨rfl, _⟩
    · exact Or.inl (lt_trans h h')
    · exact Or.inl h
  · rcases h23 with h' | ⟨rfl, h23⟩
    · exact Or.inl h'
    · refine Or.inr ⟨rfl, ?_⟩
      rcases h12 with h | ⟨rfl, h12⟩
      · rcases h23 with h' | ⟨rfl, _⟩
        · exact Or.inl (lt_trans h h')
        · exact Or.inl h
      · rcases h23 with h' | ⟨rfl, h23⟩
        · exact Or.inl h'
        · refine Or.inr ⟨rfl, ?_⟩
          rcases h12 with h | ⟨rfl, h12⟩
          · rcases h23 with h' | ⟨rfl, _⟩
            · exact Or.inl (lt_trans h h')
            · exact Or.inl h
          · rcases h23 with h' | ⟨rfl, h23⟩
            · exact Or.inl h'
            · exact Or.inr ⟨rfl, le_trans h12 h23⟩

theorem specKeyLe_of_eq {k1 k2 : String × String × Int × String} (h : k1 = k2) :
    specKeyLe k1 k2 := by
  subst h
  obtain ⟨p, e, t, n⟩ := k1
  exact Or.inr ⟨rfl, Or.inr ⟨rfl, Or.inr ⟨rfl, le_rfl⟩⟩⟩

/-- C6: the grouped resource view's sort is a permutation of the aggregated
entries ordered lexicographically by (project name, environment name, type
rank, item name) with ties falling through, the type ranks are
application 1, service 2, database 3 and 99 otherwise, and entries equal on
all four keys keep their pre-sort relative order (stability). -/
theorem groupedSort_spec (items : List ResourceItem)
    (envLookupMap : List (String × ProjectEnvironment))
    (envNameMapL : List (String × String)) :
    (sortEntries (groupedEntries items envLookupMap envNameMapL)).Perm
      (groupedEntries items envLookupMap envNameMapL) ∧
    List.Pairwise (fun a b => specKeyLe (sortKey a) (sortKey b))
      (sortEntries (groupedEntries items envLookupMap envNameMapL)) ∧
    (∀ k, (sortEntries (groupedEntries items envLookupMap envNameMapL)).filter
        (fun e => decide (sortKey e = k)) =
      (groupedEntries items envLookupMap envNameMapL).filter
        (fun e => decide (sortKey e = k))) ∧
    typeOrder "application" = 1 ∧ typeOrder "service" = 2 ∧ typeOrder "database" = 3 ∧
    (∀ t, t ≠ "application" → t ≠ "service" → t ≠ "database" → typeOrder t = 99) := by
  haveI htotal : IsTotal GroupedEntry entryLe := ⟨fun a b => by
    rcases specKeyLe_total (sortKey a) (sortKey b) with h | h
    · exact Or.inl ((entryCompare_le_iff a b).mpr h)
    · exact Or.inr ((entryCompare_le_iff b a).mpr h)⟩
  haveI htrans : IsTrans GroupedEntry entryLe := ⟨fun a b c hab hbc =>
    (entryCompare_le_iff a c).mpr (specKeyLe_trans _ _ _
      ((entryCompare_le_iff a b).mp hab) ((entryCompare_le_iff b c).mp hbc))⟩
  set entries := groupedEntries items envLookupMap envNameMapL with hentries
  refine ⟨List.perm_insertionSort entryLe entries, ?_, ?_, rfl, rfl, rfl, ?_⟩
  · exact (List.sorted_insertionSort entryLe entries).imp
      fun hab => (entryCompare_le_iff _ _).mp hab
  · intro k
    set p : GroupedEntry → Bool := fun e => decide (sortKey e = k) with hp
    have hkey : ∀ e, p e = true → sortKey e = k := fun e he => of_decide_eq_true he
    have hpair : (entries.filter p).Pairwise entryLe := by
      apply List.pairwise_of_forall_mem_list
      intro a ha b hb
      have hak := hkey a (List.mem_filter.mp ha).2
      have hbk := hkey b (List.mem_filter.mp hb).2
      exact (entryCompare_le_iff a b).mpr (specKeyLe_of_eq (hak.trans hbk.symm))
    have h1 : List.Sublist (entries.filter p) (sortEntries entries) :=
      List.sublist_insertionSort hpair (List.filter_sublist entries)
    have hperm : List.Perm ((sortEntries entries).filter p) (entries.filter p) :=
      (List.perm_insertionSort entryLe entries).filter p
    have hcc : (entries.filter p).filter p = entries.filter p :=
      List.filter_eq_self.mpr fun a ha => (List.mem_filter.mp ha).2
    have h3 : List.Sublist (entries.filter p) ((sortEntries entries).filter p) := by
      have h4 := List.Sublist.filter p h1
      rwa [hcc] at h4
    exact (List.Sublist.eq_of_length h3 hperm.length_eq.symm).symm
  · intro t h1 h2 h3
    simp [typeOrder, h1, h2, h3]

/-- C6 witness: the type-rank default applied at a concrete unknown tag. -/
theorem groupedSort_spec_witness : typeOrder "postgres" = 99 :=
  (groupedSort_spec [] [] []).2.2.2.2.2.2 "postgres" (by decide) (by decide) (by decide)

end Coolify
